import Mathlib

/-!
Verification of the group-allocation engine of the parking system
(`allocate_group` in `src/ui/parking_allocation_tab.py`).

The Python method reads a mapping `self.parking_data` from space identifiers
to space records (dicts).  Records are embedded as a structure of optional
fields: a `none` field models a missing dictionary key.  Python ints are
embedded as `Int`, Python floats as `ℚ` (the scoring formulas are exact
rational arithmetic), and the two runtime errors the body can raise
(`KeyError` on `data['occupied']`, `ZeroDivisionError` on the two divisions)
are embedded with `Except String`.  Python dicts iterate in insertion order,
so the mapping is embedded as an association list.
-/

namespace ParkingAlloc

/-- A parking-space record (a Python dict).  Every field is optional:
`none` means the key is absent.  Only the keys read by `allocate_group`
are represented. -/
structure SpaceData where
  is_group : Option Bool := none
  occupied : Option Bool := none
  member_spaces : Option (List String) := none
  distance_to_entrance : Option ℚ := none
  vehicle_id : Option String := none
deriving DecidableEq, Repr

/-- The parking-data mapping, in dict (insertion) iteration order. -/
abbrev PData := List (String × SpaceData)

/-- The error raised by `data['occupied']` when the key is missing. -/
def keyErrorOccupied : String := "KeyError: occupied"

/-- The error raised by a division by zero. -/
def zeroDivisionError : String := "ZeroDivisionError"

/-- `member_count = len(data.get('member_spaces', []))` (line 640). -/
def member_count (d : SpaceData) : Int :=
  ((d.member_spaces.getD []).length : Int)

/-- `size_match = 1 - abs(member_count - vehicle_size) / max(member_count, vehicle_size)`
(line 643): the abs and max are computed on Python ints, the division is
float (here: rational) division. -/
def size_match (d : SpaceData) (vehicle_size : Int) : ℚ :=
  1 - ((|member_count d - vehicle_size| : ℤ) : ℚ)
        / ((max (member_count d) vehicle_size : ℤ) : ℚ)

/-- `distance_score = 1 / (1 + data.get('distance_to_entrance', 0) / 1000)`
(line 646). -/
def distance_score (d : SpaceData) : ℚ :=
  1 / (1 + d.distance_to_entrance.getD 0 / 1000)

/-- The per-candidate score of the loop body (lines 640-649):
`score = (size_match * 0.7) + (distance_score * 0.3)`, raising
`ZeroDivisionError` when `max(member_count, vehicle_size)` is zero or when
`1 + distance_to_entrance / 1000` is zero. -/
def groupScore (d : SpaceData) (vehicle_size : Int) : Except String ℚ :=
  if max (member_count d) vehicle_size = 0 then .error zeroDivisionError
  else if (1 + d.distance_to_entrance.getD 0 / 1000 : ℚ) = 0 then .error zeroDivisionError
  else .ok (size_match d vehicle_size * (7/10) + distance_score d * (3/10))

/-- The dict comprehension of lines 628-629:
`{sid: data for sid, data in parking_data.items()
  if data.get('is_group', False) and not data['occupied']}`.
A record whose `is_group` key is absent or false is skipped without touching
`occupied`; a record with `is_group` true but no `occupied` key raises
`KeyError`. -/
def freeGroups : PData → Except String PData
  | [] => .ok []
  | (sid, d) :: rest =>
    if d.is_group.getD false then
      match d.occupied with
      | none => .error keyErrorOccupied
      | some occ =>
        if occ then freeGroups rest
        else
          match freeGroups rest with
          | .error e => .error e
          | .ok fg => .ok ((sid, d) :: fg)
    else freeGroups rest

/-- The selection loop of lines 635-653: starting from
`best_group = None, best_score = 0`, each candidate replaces the current
best exactly when `score > best_score`. -/
def allocLoop (vehicle_size : Int) :
    List (String × SpaceData) → Option String × ℚ → Except String (Option String × ℚ)
  | [], best => .ok best
  | (gid, d) :: rest, best =>
    match groupScore d vehicle_size with
    | .error e => .error e
    | .ok score =>
      if best.2 < score then allocLoop vehicle_size rest (some gid, score)
      else allocLoop vehicle_size rest best

/-- `allocate_group(self, vehicle_id, vehicle_size)` (lines 625-655):
filter to the free groups, return `(None, 0)` when there are none, otherwise
run the selection loop and return `(best_group, best_score)`.
`vehicle_id` is a parameter of the Python method but is never read. -/
def allocate_group (parking_data : PData) (vehicle_id : String) (vehicle_size : Int) :
    Except String (Option String × ℚ) :=
  match freeGroups parking_data with
  | .error e => .error e
  | .ok [] => .ok (none, 0)
  | .ok fg => allocLoop vehicle_size fg (none, 0)

/-! ## Helper lemmas about the candidate filter and the selection loop -/

/-- Every candidate produced by the filter is an entry of the input mapping. -/
lemma freeGroups_sub :
    ∀ (pd fg : PData), freeGroups pd = .ok fg → ∀ q ∈ fg, q ∈ pd := by
  intro pd
  induction pd with
  | nil =>
    intro fg hfg q hq
    rw [freeGroups] at hfg
    cases hfg
    cases hq
  | cons hd rest ih =>
    intro fg hfg q hq
    obtain ⟨sid, d⟩ := hd
    rw [freeGroups] at hfg
    by_cases hg : d.is_group.getD false
    · rw [if_pos hg] at hfg
      cases hocc : d.occupied with
      | none => rw [hocc] at hfg; cases hfg
      | some occ =>
        rw [hocc] at hfg
        cases occ with
        | true =>
          simp only at hfg
          exact List.mem_cons_of_mem _ (ih fg hfg q hq)
        | false =>
          simp only at hfg
          cases hrest : freeGroups rest with
          | error e => rw [hrest] at hfg; cases hfg
          | ok fg0 =>
            rw [hrest] at hfg
            cases hfg
            rcases List.mem_cons.mp hq with h | h
            · exact h ▸ List.mem_cons_self _ _
            · exact List.mem_cons_of_mem _ (ih fg0 hrest q h)
    · rw [if_neg hg] at hfg
      exact List.mem_cons_of_mem _ (ih fg hfg q hq)

/-- When every record flagged `is_group` carries an `occupied` key, the filter
succeeds and returns exactly the free groups, in order. -/
lemma freeGroups_wf :
    ∀ pd : PData,
      (∀ p ∈ pd, p.2.is_group.getD false = true → p.2.occupied ≠ none) →
      ∃ fg, freeGroups pd = .ok fg ∧
        ∀ p, p ∈ fg ↔ p ∈ pd ∧ p.2.is_group.getD false = true ∧ p.2.occupied = some false := by
  intro pd
  induction pd with
  | nil =>
    intro _
    refine ⟨[], rfl, ?_⟩
    simp
  | cons hd rest ih =>
    intro hwf
    obtain ⟨fg, hfg, hmem⟩ :=
      ih (fun p hp => hwf p (List.mem_cons_of_mem _ hp))
    obtain ⟨sid, d⟩ := hd
    by_cases hg : d.is_group.getD false
    · cases hocc : d.occupied with
      | none =>
        exact absurd hocc (hwf (sid, d) (List.mem_cons_self _ _) hg)
      | some occ =>
        cases occ with
        | true =>
          refine ⟨fg, ?_, ?_⟩
          · rw [freeGroups, if_pos hg, hocc]
            simp [hfg]
          · intro p
            rw [hmem p, List.mem_cons]
            constructor
            · rintro ⟨hp, h1, h2⟩; exact ⟨Or.inr hp, h1, h2⟩
            · rintro ⟨hp | hp, h1, h2⟩
              · rw [hp] at h2
                rw [hocc] at h2
                cases h2
              · exact ⟨hp, h1, h2⟩
        | false =>
          refine ⟨(sid, d) :: fg, ?_, ?_⟩
          · rw [freeGroups, if_pos hg, hocc]
            simp [hfg]
          · intro p
            rw [List.mem_cons, List.mem_cons, hmem p]
            constructor
            · rintro (hp | ⟨hp, h1, h2⟩)
              · exact ⟨Or.inl hp, by rw [hp]; exact hg, by rw [hp]; exact hocc⟩
              · exact ⟨Or.inr hp, h1, h2⟩
            · rintro ⟨hp | hp, h1, h2⟩
              · exact Or.inl hp
              · exact Or.inr ⟨hp, h1, h2⟩
    · refine ⟨fg, ?_, ?_⟩
      · rw [freeGroups, if_neg hg]
        exact hfg
      · intro p
        rw [hmem p, List.mem_cons]
        constructor
        · rintro ⟨hp, h1, h2⟩; exact ⟨Or.inr hp, h1, h2⟩
        · rintro ⟨hp | hp, h1, h2⟩
          · rw [hp] at h1
            exact absurd h1 hg
          · exact ⟨hp, h1, h2⟩

/-- If some record is flagged `is_group` but carries no `occupied` key, the
filter raises the `KeyError`. -/
lemma freeGroups_bad :
    ∀ pd : PData,
      (∃ p ∈ pd, p.2.is_group.getD false = true ∧ p.2.occupied = none) →
      freeGroups pd = .error keyErrorOccupied := by
  intro pd
  induction pd with
  | nil =>
    rintro ⟨p, hp, -⟩
    cases hp
  | cons hd rest ih =>
    rintro ⟨p, hp, h1, h2⟩
    obtain ⟨sid, d⟩ := hd
    rcases List.mem_cons.mp hp with hph | hpr
    · rw [hph] at h1 h2
      rw [freeGroups, if_pos h1, h2]
    · have hrest := ih ⟨p, hpr, h1, h2⟩
      rw [freeGroups]
      by_cases hg : d.is_group.getD false
      · rw [if_pos hg]
        cases hocc : d.occupied with
        | none => rfl
        | some occ =>
          cases occ with
          | true => exact hrest
          | false => simp [hrest]
      · rw [if_neg hg]
        exact hrest

/-- The loop either keeps its initial accumulator or returns the score of one
of the candidates it visited. -/
lemma allocLoop_score_mem (vs : Int) :
    ∀ (l : List (String × SpaceData)) (b : Option String × ℚ) (g : Option String) (s : ℚ),
      allocLoop vs l b = .ok (g, s) →
      s = b.2 ∨ ∃ q ∈ l, groupScore q.2 vs = .ok s := by
  intro l
  induction l with
  | nil =>
    intro b g s h
    rw [allocLoop] at h
    cases h
    exact Or.inl rfl
  | cons hd rest ih =>
    intro b g s h
    obtain ⟨gid, d⟩ := hd
    rw [allocLoop] at h
    cases hsc : groupScore d vs with
    | error e => rw [hsc] at h; cases h
    | ok s0 =>
      rw [hsc] at h
      simp only at h
      by_cases hlt : b.2 < s0
      · rw [if_pos hlt] at h
        rcases ih _ g s h with h0 | ⟨q, hq, hqs⟩
        · exact Or.inr ⟨(gid, d), List.mem_cons_self _ _, by rw [hsc, h0]⟩
        · exact Or.inr ⟨q, List.mem_cons_of_mem _ hq, hqs⟩
      · rw [if_neg hlt] at h
        rcases ih _ g s h with h0 | ⟨q, hq, hqs⟩
        · exact Or.inl h0
        · exact Or.inr ⟨q, List.mem_cons_of_mem _ hq, hqs⟩

/-- If every candidate scores without an exception, the loop terminates
normally. -/
lemma allocLoop_isOk (vs : Int) :
    ∀ (l : List (String × SpaceData)) (b : Option String × ℚ),
      (∀ q ∈ l, ∃ sq, groupScore q.2 vs = .ok sq) →
      ∃ r, allocLoop vs l b = .ok r := by
  intro l
  induction l with
  | nil =>
    intro b _
    exact ⟨b, rfl⟩
  | cons hd rest ih =>
    intro b hok
    obtain ⟨gid, d⟩ := hd
    obtain ⟨s0, hs0⟩ := hok (gid, d) (List.mem_cons_self _ _)
    have hrest : ∀ q ∈ rest, ∃ sq, groupScore q.2 vs = .ok sq :=
      fun q hq => hok q (List.mem_cons_of_mem _ hq)
    rw [allocLoop, hs0]
    simp only
    by_cases hlt : b.2 < s0
    · rw [if_pos hlt]
      exact ih _ hrest
    · rw [if_neg hlt]
      exact ih _ hrest

/-- Once the accumulator holds a group, the loop can only return a group. -/
lemma allocLoop_some (vs : Int) :
    ∀ (l : List (String × SpaceData)) (g0 : String) (bs : ℚ) (r : Option String × ℚ),
      allocLoop vs l (some g0, bs) = .ok r → ∃ g, r.1 = some g := by
  intro l
  induction l with
  | nil =>
    intro g0 bs r h
    rw [allocLoop] at h
    cases h
    exact ⟨g0, rfl⟩
  | cons hd rest ih =>
    intro g0 bs r h
    obtain ⟨gid, d⟩ := hd
    rw [allocLoop] at h
    cases hsc : groupScore d vs with
    | error e => rw [hsc] at h; cases h
    | ok s0 =>
      rw [hsc] at h
      simp only at h
      by_cases hlt : bs < s0
      · rw [if_pos hlt] at h
        exact ih gid s0 r h
      · rw [if_neg hlt] at h
        exact ih g0 bs r h

/-- Per-candidate bound: for vehicle size at least 1 and a non-negative (or
absent) recorded distance, scoring succeeds and the score lies in (0, 1]. -/
lemma groupScore_bounds (d : SpaceData) (vs : Int) (hv : 1 ≤ vs)
    (hd : ∀ q, d.distance_to_entrance = some q → 0 ≤ q) :
    ∃ s, groupScore d vs = .ok s ∧ 0 < s ∧ s ≤ 1 := by
  have hm : 0 ≤ member_count d := by
    rw [member_count]
    exact Int.ofNat_nonneg _
  have hmax : 0 < max (member_count d) vs := lt_of_lt_of_le hv (le_max_right _ _)
  have hdist0 : 0 ≤ d.distance_to_entrance.getD 0 := by
    cases hopt : d.distance_to_entrance with
    | none => simp
    | some q => simpa using hd q hopt
  have hden : (0:ℚ) < 1 + d.distance_to_entrance.getD 0 / 1000 := by positivity
  have hMq : (0:ℚ) < ((max (member_count d) vs : ℤ) : ℚ) := by exact_mod_cast hmax
  have hAM : (|member_count d - vs| : ℤ) ≤ max (member_count d) vs := by
    rcases le_total (member_count d) vs with h | h
    · rw [abs_of_nonpos (by linarith)]
      have := le_max_right (member_count d) vs
      linarith
    · rw [abs_of_nonneg (by linarith)]
      have := le_max_left (member_count d) vs
      linarith
  have hsm0 : 0 ≤ size_match d vs := by
    rw [size_match, sub_nonneg, div_le_one hMq]
    exact_mod_cast hAM
  have hsm1 : size_match d vs ≤ 1 := by
    rw [size_match]
    have hA0 : (0:ℚ) ≤ ((|member_count d - vs| : ℤ) : ℚ) := by exact_mod_cast abs_nonneg _
    have := div_nonneg hA0 (le_of_lt hMq)
    linarith
  have hds0 : 0 < distance_score d := by
    rw [distance_score]
    positivity
  have hds1 : distance_score d ≤ 1 := by
    rw [distance_score, div_le_one hden]
    linarith
  rw [groupScore, if_neg (ne_of_gt hmax), if_neg (ne_of_gt hden)]
  refine ⟨_, rfl, ?_, ?_⟩
  · linarith
  · linarith

/-- Full characterization of a successful loop run: either no candidate ever
beat the threshold and the accumulator comes back unchanged with every visited
score at most the threshold, or the loop returns the first candidate whose
score strictly exceeds the threshold and every score before it, no later
candidate scoring strictly higher. -/
lemma allocLoop_spec (vs : Int) :
    ∀ (l : List (String × SpaceData)) (bg : Option String) (bs : ℚ)
      (g : Option String) (s : ℚ),
      allocLoop vs l (bg, bs) = .ok (g, s) →
      (g = bg ∧ s = bs ∧ ∀ q ∈ l, ∃ sq, groupScore q.2 vs = .ok sq ∧ sq ≤ s) ∨
      (∃ l1 p l2, l = l1 ++ p :: l2 ∧ g = some p.1 ∧ groupScore p.2 vs = .ok s ∧ bs < s ∧
        (∀ q ∈ l1, ∃ sq, groupScore q.2 vs = .ok sq ∧ sq < s) ∧
        (∀ q ∈ l2, ∃ sq, groupScore q.2 vs = .ok sq ∧ sq ≤ s)) := by
  intro l
  induction l with
  | nil =>
    intro bg bs g s h
    rw [allocLoop] at h
    cases h
    left
    exact ⟨rfl, rfl, by simp⟩
  | cons hd rest ih =>
    intro bg bs g s h
    obtain ⟨gid, d⟩ := hd
    rw [allocLoop] at h
    cases hsc : groupScore d vs with
    | error e => rw [hsc] at h; cases h
    | ok s0 =>
      rw [hsc] at h
      simp only at h
      by_cases hlt : bs < s0
      · rw [if_pos hlt] at h
        rcases ih (some gid) s0 g s h with ⟨hg, hs, hall⟩ | ⟨l1, p, l2, heq, hg, hps, hbs, h1, h2⟩
        · right
          refine ⟨[], (gid, d), rest, by simp, hg, ?_, ?_, by simp, hall⟩
          · rw [hsc, hs]
          · rw [hs]; exact hlt
        · right
          refine ⟨(gid, d) :: l1, p, l2, by rw [heq, List.cons_append], hg, hps, lt_trans hlt hbs, ?_, h2⟩
          intro q hq
          rcases List.mem_cons.mp hq with hq0 | hq1
          · exact ⟨s0, by rw [hq0]; exact hsc, hbs⟩
          · exact h1 q hq1
      · rw [if_neg hlt] at h
        rcases ih bg bs g s h with ⟨hg, hs, hall⟩ | ⟨l1, p, l2, heq, hg, hps, hbs, h1, h2⟩
        · left
          refine ⟨hg, hs, ?_⟩
          intro q hq
          rcases List.mem_cons.mp hq with hq0 | hq1
          · exact ⟨s0, by rw [hq0]; exact hsc, by rw [hs]; exact le_of_not_lt hlt⟩
          · exact hall q hq1
        · right
          refine ⟨(gid, d) :: l1, p, l2, by rw [heq, List.cons_append], hg, hps, hbs, ?_, h2⟩
          intro q hq
          rcases List.mem_cons.mp hq with hq0 | hq1
          · exact ⟨s0, by rw [hq0]; exact hsc, lt_of_le_of_lt (le_of_not_lt hlt) hbs⟩
          · exact h1 q hq1

/-! ## Spec-side scoring formulas

These follow the wording of the specification (section 4.2), to be compared
with the definitions transcribed from the source above. -/

/-- Spec formula: `size_match = 1 - |member_count - vehicle_size| / max(member_count, vehicle_size)`. -/
def spec_size_match (mc vs : Int) : ℚ :=
  1 - |(mc : ℚ) - (vs : ℚ)| / max (mc : ℚ) (vs : ℚ)

/-- Spec formula: `distance_score = 1 / (1 + distance_to_entrance / 1000)`. -/
def spec_distance_score (dist : ℚ) : ℚ :=
  1 / (1 + dist / 1000)

/-- Spec formula: `score = 0.7 * size_match + 0.3 * distance_score`. -/
def spec_score (mc vs : Int) (dist : ℚ) : ℚ :=
  (7/10) * spec_size_match mc vs + (3/10) * spec_distance_score dist

/-! ## Claim theorems -/

/-- C1: for every free candidate group (`is_group = true`, `occupied = false`),
`allocate_group` computes its score as `0.7 * size_match + 0.3 * distance_score`
with `size_match = 1 - |member_count - vehicle_size| / max(member_count, vehicle_size)`
(`member_count` the length of `member_spaces`) and
`distance_score = 1 / (1 + distance_to_entrance / 1000)`.  The two divisor
hypotheses rule out the `ZeroDivisionError` paths. -/
theorem allocate_group_score_formula (d : SpaceData) (vs : Int)
    (hfree : d.is_group.getD false = true ∧ d.occupied = some false)
    (hmax : max (member_count d) vs ≠ 0)
    (hden : (1 + d.distance_to_entrance.getD 0 / 1000 : ℚ) ≠ 0) :
    groupScore d vs =
      .ok (spec_score (member_count d) vs (d.distance_to_entrance.getD 0)) := by
  rw [groupScore, if_neg hmax, if_neg hden]
  congr 1
  rw [spec_score, spec_size_match, spec_distance_score, size_match, distance_score]
  push_cast
  ring

/-- Concrete instance for `allocate_group_score_formula`: a free group with one
member space at distance 500, for vehicle size 2. -/
def exRecC1 : SpaceData :=
  { is_group := some true, occupied := some false,
    member_spaces := some ["a"], distance_to_entrance := some 500 }

/-- Witness for C1 at `exRecC1` and vehicle size 2. -/
theorem allocate_group_score_formula_witness :
    groupScore exRecC1 2 =
      .ok (spec_score (member_count exRecC1) 2 (exRecC1.distance_to_entrance.getD 0)) :=
  allocate_group_score_formula exRecC1 2 (by decide) (by decide)
    (by rw [exRecC1]; norm_num)

/-- C9: the `vehicle_id` parameter never influences the result of
`allocate_group`: the Python body never reads it, so calls differing only in
`vehicle_id` return the same `(group, score)` pair (or the same error). -/
theorem allocate_group_vehicle_id_irrelevant (pd : PData) (vs : Int) (vid1 vid2 : String) :
    allocate_group pd vid1 vs = allocate_group pd vid2 vs := rfl

/-- C10: a candidate record with no `distance_to_entrance` key is scored with
the default 0, i.e. exactly as if it sat at the entrance: its distance score is
exactly 1, equal to the distance score of the same record with distance 0, and
strictly above the distance score of any record with a recorded positive
distance. -/
theorem missing_distance_scores_max :
    (∀ d : SpaceData, d.distance_to_entrance = none → distance_score d = 1) ∧
    (∀ d : SpaceData, d.distance_to_entrance = none →
      distance_score d = distance_score { d with distance_to_entrance := some 0 }) ∧
    (∀ (d : SpaceData) (q : ℚ), d.distance_to_entrance = some q → 0 < q →
      distance_score d < 1) := by
  refine ⟨?_, ?_, ?_⟩
  · intro d h
    rw [distance_score, h]
    norm_num
  · intro d h
    rw [distance_score, distance_score, h]
    norm_num
  · intro d q h hq
    rw [distance_score, h]
    simp only [Option.getD_some]
    rw [div_lt_one (by positivity)]
    linarith

/-- A free group record with no `distance_to_entrance` key. -/
def exRecC10a : SpaceData := { is_group := some true, occupied := some false }

/-- A free group record at recorded distance 500. -/
def exRecC10b : SpaceData :=
  { is_group := some true, occupied := some false, distance_to_entrance := some 500 }

/-- Witness for C10: the keyless record scores exactly 1 and beats the record
at distance 500. -/
theorem missing_distance_scores_max_witness :
    distance_score exRecC10a = 1 ∧ distance_score exRecC10b < 1 :=
  ⟨missing_distance_scores_max.1 exRecC10a rfl,
   missing_distance_scores_max.2.2 exRecC10b 500 rfl (by norm_num)⟩

/-! ## State-threaded embedding for the frame property

`allocate_group` is a method of the tab object and reads the shared store
`self.parking_data`.  To state that it never mutates the store, the same body
is transcribed once more with the store threaded explicitly through every
step; each step returns the store it received because the Python statements
only read it. -/

/-- The part of the tab object's state the method can reach. -/
structure TabState where
  parking_data : PData
deriving DecidableEq

/-- The dict comprehension of lines 628-629, with the store it reads
threaded through. -/
def freeGroupsS (store : PData) : PData × Except String PData :=
  (store, freeGroups store)

/-- The selection loop of lines 635-653 with the store threaded through each
iteration. -/
def allocLoopS (vehicle_size : Int) :
    List (String × SpaceData) → Option String × ℚ → PData →
      PData × Except String (Option String × ℚ)
  | [], best, store => (store, .ok best)
  | (gid, d) :: rest, best, store =>
    match groupScore d vehicle_size with
    | .error e => (store, .error e)
    | .ok score =>
      if best.2 < score then allocLoopS vehicle_size rest (some gid, score) store
      else allocLoopS vehicle_size rest best store

/-- The whole method as a state transformer on the tab state. -/
def allocate_group_method (st : TabState) (vehicle_id : String) (vehicle_size : Int) :
    TabState × Except String (Option String × ℚ) :=
  match freeGroupsS st.parking_data with
  | (store1, .error e) => (⟨store1⟩, .error e)
  | (store1, .ok []) => (⟨store1⟩, .ok (none, 0))
  | (store1, .ok fg) =>
    match allocLoopS vehicle_size fg (none, 0) store1 with
    | (store2, r) => (⟨store2⟩, r)

/-- The threaded loop returns its store unchanged and computes the same
result as the pure loop. -/
lemma allocLoopS_eq (vs : Int) :
    ∀ (l : List (String × SpaceData)) (b : Option String × ℚ) (store : PData),
      allocLoopS vs l b store = (store, allocLoop vs l b) := by
  intro l
  induction l with
  | nil => intro b store; rfl
  | cons hd rest ih =>
    intro b store
    obtain ⟨gid, d⟩ := hd
    rw [allocLoopS, allocLoop]
    cases hsc : groupScore d vs with
    | error e => rfl
    | ok s0 =>
      simp only
      by_cases hlt : b.2 < s0
      · rw [if_pos hlt, if_pos hlt, ih]
      · rw [if_neg hlt, if_neg hlt, ih]

/-- C7: `allocate_group` never mutates the parking-data store: threading the
store through every step of the body returns it unchanged (and computes the
very result of the pure reading of the body).  The engine only reads and
scores; the caller applies the occupancy mutation. -/
theorem allocate_group_no_mutation (st : TabState) (vid : String) (vs : Int) :
    (allocate_group_method st vid vs).1 = st ∧
    (allocate_group_method st vid vs).2 = allocate_group st.parking_data vid vs := by
  rw [allocate_group_method, allocate_group, freeGroupsS]
  cases hfg : freeGroups st.parking_data with
  | error e => exact ⟨rfl, rfl⟩
  | ok fg =>
    cases fg with
    | nil => exact ⟨rfl, rfl⟩
    | cons p rest =>
      simp only [allocLoopS_eq]
      exact ⟨trivial, trivial⟩

/-- C3: when no record is both flagged `is_group` and free (in particular when
no record is flagged `is_group` at all), and records are well-formed in that
every `is_group` record carries an `occupied` key, `allocate_group` returns
the sentinel `(None, 0)`. -/
theorem allocate_group_no_free_sentinel (pd : PData) (vid : String) (vs : Int)
    (hwf : ∀ p ∈ pd, p.2.is_group.getD false = true → p.2.occupied ≠ none)
    (hnone : ∀ p ∈ pd, ¬(p.2.is_group.getD false = true ∧ p.2.occupied = some false)) :
    allocate_group pd vid vs = .ok (none, 0) := by
  obtain ⟨fg, hfg, hmem⟩ := freeGroups_wf pd hwf
  have hnil : fg = [] := by
    rw [List.eq_nil_iff_forall_not_mem]
    intro p hp
    obtain ⟨hin, h1, h2⟩ := (hmem p).mp hp
    exact hnone p hin ⟨h1, h2⟩
  rw [allocate_group, hfg, hnil]

/-- A mapping with one occupied group and one free non-group space. -/
def pdC3 : PData :=
  [("X1", { is_group := some true, occupied := some true, member_spaces := some ["a", "b"] }),
   ("Y1", { is_group := some false, occupied := some false })]

/-- Witness for C3 at `pdC3`: no free group, so the sentinel comes back. -/
theorem allocate_group_no_free_sentinel_witness :
    allocate_group pdC3 "v" 2 = .ok (none, 0) :=
  allocate_group_no_free_sentinel pdC3 "v" 2 (by decide) (by decide)

/-- C8: a mapping containing a record flagged `is_group` but with no
`occupied` key makes `allocate_group` raise `KeyError` instead of returning:
the filter reads `data['occupied']` unguarded after the guarded
`data.get('is_group', False)` check. -/
theorem allocate_group_missing_occupied_keyerror (pd : PData) (vid : String) (vs : Int)
    (hbad : ∃ p ∈ pd, p.2.is_group.getD false = true ∧ p.2.occupied = none) :
    allocate_group pd vid vs = .error keyErrorOccupied := by
  rw [allocate_group, freeGroups_bad pd hbad]

/-- A mapping whose second record is flagged `is_group` with no `occupied`
key; the first record has no `is_group` key and is skipped safely. -/
def pdC8 : PData :=
  [("M1", { occupied := some false }),
   ("N1", { is_group := some true, member_spaces := some ["a"] })]

/-- Witness for C8 at `pdC8`. -/
theorem allocate_group_missing_occupied_keyerror_witness :
    allocate_group pdC8 "v" 1 = .error keyErrorOccupied :=
  allocate_group_missing_occupied_keyerror pdC8 "v" 1 (by decide)

/-- A single free group at a negative recorded distance. -/
def pdC2cex : PData :=
  [("G2", { is_group := some true, occupied := some false,
            member_spaces := some ["a"], distance_to_entrance := some (-500) })]

/-- C2 counterexample: the claim quantifies over every parking-data mapping,
but a free group recorded at distance -500 (a numeric value the record type
admits) is returned with score 13/10, strictly above 1. -/
theorem allocate_group_score_above_one_cex :
    allocate_group pdC2cex "v" 1 = .ok (some "G2", 13/10) ∧ (1 : ℚ) < 13/10 := by
  constructor
  · simp [pdC2cex, allocate_group, freeGroups, allocLoop, groupScore,
      size_match, distance_score, member_count]
    norm_num
  · norm_num

/-- Per-candidate upper bound, for any integer vehicle size: whenever the
score is computed at all (no `ZeroDivisionError`) and the recorded distance,
if any, is non-negative, it is at most 1: `size_match` is at most 1 whenever
its divisor is nonzero and `distance_score` lies in (0, 1]. -/
lemma groupScore_le_one (d : SpaceData) (vs : Int)
    (hd : ∀ q, d.distance_to_entrance = some q → 0 ≤ q)
    (s : ℚ) (h : groupScore d vs = .ok s) : s ≤ 1 := by
  rw [groupScore] at h
  by_cases hmax : max (member_count d) vs = 0
  · rw [if_pos hmax] at h; cases h
  · rw [if_neg hmax] at h
    by_cases hden : (1 + d.distance_to_entrance.getD 0 / 1000 : ℚ) = 0
    · rw [if_pos hden] at h; cases h
    · rw [if_neg hden] at h
      cases h
      have hm : 0 ≤ member_count d := by
        rw [member_count]
        exact Int.ofNat_nonneg _
      have hmaxpos : 0 < max (member_count d) vs :=
        lt_of_le_of_ne (le_trans hm (le_max_left _ _)) (Ne.symm hmax)
      have hMq : (0:ℚ) < ((max (member_count d) vs : ℤ) : ℚ) := by exact_mod_cast hmaxpos
      have hA0 : (0:ℚ) ≤ ((|member_count d - vs| : ℤ) : ℚ) := by exact_mod_cast abs_nonneg _
      have hsm1 : size_match d vs ≤ 1 := by
        rw [size_match]
        have := div_nonneg hA0 (le_of_lt hMq)
        linarith
      have hdist0 : 0 ≤ d.distance_to_entrance.getD 0 := by
        cases hopt : d.distance_to_entrance with
        | none => simp
        | some q => simpa using hd q hopt
      have hdenpos : (0:ℚ) < 1 + d.distance_to_entrance.getD 0 / 1000 := by positivity
      have hds1 : distance_score d ≤ 1 := by
        rw [distance_score, div_le_one hdenpos]
        linarith
      linarith

/-- C2 (amended): whenever every recorded `distance_to_entrance` in the
mapping is non-negative, any score `allocate_group` returns lies within
[0, 1], for every integer vehicle size: the returned best score is either the
initial 0 or a candidate score that strictly beat it, and every computed
candidate score is at most 1. -/
theorem allocate_group_score_bounds (pd : PData) (vid : String) (vs : Int)
    (hd : ∀ p ∈ pd, ∀ q, p.2.distance_to_entrance = some q → 0 ≤ q)
    (g : Option String) (s : ℚ)
    (h : allocate_group pd vid vs = .ok (g, s)) :
    0 ≤ s ∧ s ≤ 1 := by
  rw [allocate_group] at h
  cases hfg : freeGroups pd with
  | error e => rw [hfg] at h; cases h
  | ok fg =>
    rw [hfg] at h
    cases fg with
    | nil =>
      cases h
      norm_num
    | cons p0 rest =>
      simp only at h
      rcases allocLoop_spec vs (p0 :: rest) none 0 g s h with
        ⟨-, hs, -⟩ | ⟨l1, p, l2, heq, -, hps, hbs, -, -⟩
      · rw [hs]
        norm_num
      · have hp : p ∈ p0 :: rest := by
          rw [heq]
          exact List.mem_append_right _ (List.mem_cons_self _ _)
        have hppd : p ∈ pd := freeGroups_sub pd (p0 :: rest) hfg p hp
        exact ⟨le_of_lt hbs, groupScore_le_one p.2 vs (hd p hppd) s hps⟩

/-- A single free two-member group at distance 100. -/
def pdC2w : PData :=
  [("Z1", { is_group := some true, occupied := some false,
            member_spaces := some ["a", "b"], distance_to_entrance := some 100 })]

/-- Witness for the amended C2 at `pdC2w` with vehicle size 2: the returned
score 107/110 lies within [0, 1]. -/
theorem allocate_group_score_bounds_witness :
    (0 : ℚ) ≤ 107/110 ∧ (107/110 : ℚ) ≤ 1 :=
  allocate_group_score_bounds pdC2w "v" 2
    (by
      intro p hp q hq
      rw [pdC2w, List.mem_singleton] at hp
      rw [hp] at hq
      simp only [Option.some_inj] at hq
      rw [← hq]
      norm_num)
    (some "Z1") (107/110)
    (by
      simp [pdC2w, allocate_group, freeGroups, allocLoop, groupScore,
        size_match, distance_score, member_count]
      norm_num)

/-- C4: a successful selection returns the candidate with the strictly
greatest score, first-seen winning exact ties: the winner is a free group
whose score strictly exceeds every candidate before it in iteration order
(and the initial threshold 0), with no later candidate scoring strictly
higher. -/
theorem allocate_group_first_seen_max (pd : PData) (vid : String) (vs : Int)
    (g : String) (s : ℚ)
    (h : allocate_group pd vid vs = .ok (some g, s)) :
    ∃ fg l1 p l2, freeGroups pd = .ok fg ∧ fg = l1 ++ p :: l2 ∧ p.1 = g ∧
      groupScore p.2 vs = .ok s ∧ 0 < s ∧
      (∀ q ∈ l1, ∃ sq, groupScore q.2 vs = .ok sq ∧ sq < s) ∧
      (∀ q ∈ l2, ∃ sq, groupScore q.2 vs = .ok sq ∧ sq ≤ s) := by
  rw [allocate_group] at h
  cases hfg : freeGroups pd with
  | error e => rw [hfg] at h; cases h
  | ok fg =>
    rw [hfg] at h
    cases fg with
    | nil => cases h
    | cons p0 rest =>
      simp only at h
      rcases allocLoop_spec vs (p0 :: rest) none 0 (some g) s h with
        ⟨hg, -, -⟩ | ⟨l1, p, l2, heq, hg, hps, hbs, h1, h2⟩
      · cases hg
      · refine ⟨p0 :: rest, l1, p, l2, rfl, heq, ?_, hps, hbs, h1, h2⟩
        rw [Option.some_inj] at hg
        rw [hg]

/-- Two free one- and two-member groups at the entrance; for vehicle size 1
the first scores 1 and the second 13/20. -/
def pdC4 : PData :=
  [("A1", { is_group := some true, occupied := some false,
            member_spaces := some ["a"], distance_to_entrance := some 0 }),
   ("B1", { is_group := some true, occupied := some false,
            member_spaces := some ["a", "b"], distance_to_entrance := some 0 })]

/-- Witness for C4 at `pdC4`: the run returns `("A1", 1)` and the theorem
produces the first-seen-maximum decomposition for it. -/
theorem allocate_group_first_seen_max_witness :
    ∃ fg l1 p l2, freeGroups pdC4 = .ok fg ∧ fg = l1 ++ p :: l2 ∧ p.1 = "A1" ∧
      groupScore p.2 1 = .ok 1 ∧ (0 : ℚ) < 1 ∧
      (∀ q ∈ l1, ∃ sq, groupScore q.2 1 = .ok sq ∧ sq < 1) ∧
      (∀ q ∈ l2, ∃ sq, groupScore q.2 1 = .ok sq ∧ sq ≤ 1) :=
  allocate_group_first_seen_max pdC4 "v" 1 "A1" 1
    (by
      simp [pdC4, allocate_group, freeGroups, allocLoop, groupScore,
        size_match, distance_score, member_count]
      norm_num)

/-- C5: whenever at least one free group exists (records being well-formed:
every `is_group` record carries an `occupied` key), with non-negative
recorded distances and a vehicle size in 1, 2, 3, `allocate_group` returns a
non-None group: every candidate score from the formula is strictly positive,
so the initial threshold of 0 never rejects a real candidate. -/
theorem allocate_group_free_exists_some (pd : PData) (vid : String) (vs : Int)
    (hv : vs = 1 ∨ vs = 2 ∨ vs = 3)
    (hd : ∀ p ∈ pd, ∀ q, p.2.distance_to_entrance = some q → 0 ≤ q)
    (hwf : ∀ p ∈ pd, p.2.is_group.getD false = true → p.2.occupied ≠ none)
    (hfree : ∃ p ∈ pd, p.2.is_group.getD false = true ∧ p.2.occupied = some false) :
    ∃ g s, allocate_group pd vid vs = .ok (some g, s) := by
  have hv1 : 1 ≤ vs := by rcases hv with h | h | h <;> omega
  obtain ⟨fg, hfg, hmem⟩ := freeGroups_wf pd hwf
  obtain ⟨p0, hp0, hfree0⟩ := hfree
  have hp0f : p0 ∈ fg := (hmem p0).mpr ⟨hp0, hfree0⟩
  have hsub := freeGroups_sub pd fg hfg
  cases fg with
  | nil => cases hp0f
  | cons hd1 rest =>
    obtain ⟨gid, d⟩ := hd1
    obtain ⟨s0, hs0, hs0pos, -⟩ :=
      groupScore_bounds d vs hv1 (hd (gid, d) (hsub _ (List.mem_cons_self _ _)))
    rw [allocate_group, hfg]
    simp only
    rw [allocLoop, hs0]
    simp only
    rw [if_pos hs0pos]
    have hok : ∀ q ∈ rest, ∃ sq, groupScore q.2 vs = .ok sq := by
      intro q hq
      obtain ⟨sq, hsq, -, -⟩ :=
        groupScore_bounds q.2 vs hv1 (hd q (hsub q (List.mem_cons_of_mem _ hq)))
      exact ⟨sq, hsq⟩
    obtain ⟨r, hr⟩ := allocLoop_isOk vs rest (some gid, s0) hok
    obtain ⟨g1, hg1⟩ := allocLoop_some vs rest gid s0 r hr
    refine ⟨g1, r.2, ?_⟩
    rw [hr, ← hg1]

/-- A single free three-member group at distance 250. -/
def pdC5 : PData :=
  [("W1", { is_group := some true, occupied := some false,
            member_spaces := some ["a", "b", "c"], distance_to_entrance := some 250 })]

/-- Witness for C5 at `pdC5` with vehicle size 3. -/
theorem allocate_group_free_exists_some_witness :
    ∃ g s, allocate_group pdC5 "v" 3 = .ok (some g, s) :=
  allocate_group_free_exists_some pdC5 "v" 3 (by norm_num)
    (by
      intro p hp q hq
      rw [pdC5, List.mem_singleton] at hp
      rw [hp] at hq
      simp only [Option.some_inj] at hq
      rw [← hq]
      norm_num)
    (by decide) (by decide)

/-- A single free two-member group at distance 0. -/
def pdC6 : PData :=
  [("G6", { is_group := some true, occupied := some false,
            member_spaces := some ["a", "b"], distance_to_entrance := some 0 })]

/-- C6 counterexample: for the out-of-range vehicle size 7 the engine does not
fail fast with a descriptive error; it silently degrades, returning the free
group with score 1/2 computed by the usual formula. -/
theorem allocate_group_no_validation_cex :
    allocate_group pdC6 "v" 7 = .ok (some "G6", 1/2) := by
  simp [pdC6, allocate_group, freeGroups, allocLoop, groupScore,
    size_match, distance_score, member_count]
  norm_num

/-- C6 (amended): the engine performs no input validation at all: for every
integer vehicle size, in range or not, a mapping of well-formed records (every
`is_group` record carries an `occupied` key, no score divisor vanishes) yields
a normal `(group, score)` result, never a descriptive validation error.
Malformed records surface only as an unguarded `KeyError` or
`ZeroDivisionError`, not as a descriptive validation error. -/
theorem allocate_group_no_validation (pd : PData) (vid : String) (vs : Int)
    (hwf : ∀ p ∈ pd, p.2.is_group.getD false = true → p.2.occupied ≠ none)
    (hnz1 : ∀ p ∈ pd, max (member_count p.2) vs ≠ 0)
    (hnz2 : ∀ p ∈ pd, (1 + p.2.distance_to_entrance.getD 0 / 1000 : ℚ) ≠ 0) :
    ∃ r, allocate_group pd vid vs = .ok r := by
  obtain ⟨fg, hfg, hmem⟩ := freeGroups_wf pd hwf
  have hsub := freeGroups_sub pd fg hfg
  rw [allocate_group, hfg]
  cases fg with
  | nil => exact ⟨(none, 0), rfl⟩
  | cons p rest =>
    simp only
    apply allocLoop_isOk
    intro q hq
    have hqpd := hsub q hq
    exact ⟨size_match q.2 vs * (7/10) + distance_score q.2 * (3/10),
      by rw [groupScore, if_neg (hnz1 q hqpd), if_neg (hnz2 q hqpd)]⟩

/-- Witness for the amended C6 at `pdC6` with the out-of-range vehicle size 7:
the engine still returns a normal result. -/
theorem allocate_group_no_validation_witness :
    ∃ r, allocate_group pdC6 "v" 7 = .ok r :=
  allocate_group_no_validation pdC6 "v" 7 (by decide) (by decide)
    (by
      intro p hp
      rw [pdC6, List.mem_singleton] at hp
      rw [hp]
      norm_num)

end ParkingAlloc
